import Mathlib

set_option autoImplicit false

/-!
Shallow embedding of `src/strawberry/schema/execute.py`: the GraphQL
execution-pipeline drivers `execute` (suspending) and `execute_sync`
(blocking), together with the helpers `parse_document` and
`validate_document`.

The external collaborators (parser, validator, executor) and the
ExtensionsRunner hooks are opaque functions supplied through an `Env`
record.  Every driver run additionally returns the final ExecutionContext
and a trace of observable events: calls to external collaborators and the
driver's writes to the context's `graphql_document`, `errors` and `result`
fields.
-/

namespace Strawberry

/-- Result shape of the external executor (graphql-core's ExecutionResult):
optional data and an optional list of errors. -/
structure GraphQLExecutionResult (Dat Err : Type) where
  data : Option Dat
  errors : Option (List Err)
  deriving DecidableEq

/-- Modelled from the spec: the ExecutionContext state bag (the class lives in
strawberry/types, which is not under src/).  The fields are exactly those that
execute.py reads and writes, per section 3 of the spec: raw query, schema,
parsed document, validation rules, opaque request inputs, computed errors and
the stored executor result.  The Python field `variables` is called
`variable_values` here (graphql-core's keyword for it) because `variables`
is a reserved word in Lean.  `graphql_schema`, `graphql_document`, `errors`
and `result` are optional ("unset means not yet determined"). -/
structure ExecutionContext (Doc Err Dat Sch Val : Type) where
  query : String
  graphql_schema : Option Sch
  graphql_document : Option Doc
  validation_rules : Val
  root_value : Val
  variable_values : Val
  operation_name : Val
  context : Val
  errors : Option (List Err)
  result : Option (GraphQLExecutionResult Dat Err)
  deriving DecidableEq

/-- Modelled from the spec: strawberry's ExecutionResult returned to callers
(strawberry/types is not under src/): data, errors and the extensions mapping;
`extensions` is absent when the driver does not pass it (dataclass default). -/
structure ExecutionResult (Dat Err Ext : Type) where
  data : Option Dat
  errors : Option (List Err)
  extensions : Option Ext
  deriving DecidableEq

/-- Outcome of the external parser on a query string: a document, a raised
GraphQLError, or any other raised exception (carrying its message). -/
inductive ParseOutcome (Doc Err : Type) where
  | ok (document : Doc)
  | gqlError (e : Err)
  | exnError (msg : String)
  deriving DecidableEq

/-- Outcome of the external executor: a plain (synchronously completed)
result, or an awaitable that resolves to a result once awaited. -/
inductive ExecOutcome (Res : Type) where
  | sync (r : Res)
  | awaitable (r : Res)
  deriving DecidableEq

/-- Observable events of one driver run: invocations of the external
collaborators, the cancellation of a pending awaitable, and the driver's
writes to the ExecutionContext fields `graphql_document`, `errors`
(recording the written list) and `result`. -/
inductive CallEvent (Err : Type) where
  | parserCall
  | validatorCall
  | executorCall
  | cancelCall
  | writeDocument
  | writeErrors (written : List Err)
  | writeResult
  deriving DecidableEq

/-- The external collaborators of section 6 of the spec, plus the pieces of
this repository that are not under src/, modelled from the spec:
the ExtensionsRunner region hooks (enter and exit actions of the `request`,
`parsing` and `validation` regions, which may read and write the shared
ExecutionContext) and the terminal hook `get_extensions_results`.  The sync
and async terminal-hook variants run the same extension hooks and merge their
mappings identically, so one function models both `get_extensions_results`
and `get_extensions_results_sync`.  `original_execute` is graphql-core's
executor; it receives the schema, the document and the context (standing for
root value, middleware manager, variables, operation name and context value,
all drawn from the context or the runner). -/
structure Env (Doc Err Dat Ext Sch Val : Type) where
  parse : String → ParseOutcome Doc Err
  wrapError : String → Err
  validate : Sch → Doc → Val → List Err
  original_execute : Sch → Doc → ExecutionContext Doc Err Dat Sch Val →
    ExecOutcome (GraphQLExecutionResult Dat Err)
  on_request_start : ExecutionContext Doc Err Dat Sch Val →
    ExecutionContext Doc Err Dat Sch Val
  on_request_end : ExecutionContext Doc Err Dat Sch Val →
    ExecutionContext Doc Err Dat Sch Val
  on_parsing_start : ExecutionContext Doc Err Dat Sch Val →
    ExecutionContext Doc Err Dat Sch Val
  on_parsing_end : ExecutionContext Doc Err Dat Sch Val →
    ExecutionContext Doc Err Dat Sch Val
  on_validation_start : ExecutionContext Doc Err Dat Sch Val →
    ExecutionContext Doc Err Dat Sch Val
  on_validation_end : ExecutionContext Doc Err Dat Sch Val →
    ExecutionContext Doc Err Dat Sch Val
  get_extensions_results : ExecutionContext Doc Err Dat Sch Val → Ext

variable {Doc Err Dat Ext Sch Val : Type}

/-- Lines 21-27 of execute.py: return the cached document when the context
already holds one, otherwise invoke the external parser, store the document on
the context and return it.  A raised parser failure is returned as the
corresponding ParseOutcome with the context unchanged. -/
def parse_document (env : Env Doc Err Dat Ext Sch Val)
    (execution_context : ExecutionContext Doc Err Dat Sch Val) (query : String) :
    ParseOutcome Doc Err × ExecutionContext Doc Err Dat Sch Val × List (CallEvent Err) :=
  match execution_context.graphql_document with
  | some document => (.ok document, execution_context, [])
  | none =>
    match env.parse query with
    | .ok document =>
        (.ok document, { execution_context with graphql_document := some document },
          [.parserCall, .writeDocument])
    | .gqlError e => (.gqlError e, execution_context, [.parserCall])
    | .exnError msg => (.exnError msg, execution_context, [.parserCall])

/-- Lines 30-40 of execute.py: delegate to the external validator. -/
def validate_document (env : Env Doc Err Dat Ext Sch Val) (schema : Sch)
    (document : Doc) (validation_rules : Val) : List Err :=
  env.validate schema document validation_rules

/-- What a driver call does for its caller: return an ExecutionResult, or
raise (the RuntimeError of execute_sync on an awaitable executor result, or
the AssertionError of the validation-phase asserts). -/
inductive DriverOutcome (Dat Err Ext : Type) where
  | ok (r : ExecutionResult Dat Err Ext)
  | fatal (msg : String)
  deriving DecidableEq

/-- Result of the phases shared by both drivers: a short-circuit with the
request region already exited (`done`), or the parsed document, the current
context and the trace so far (`proceed`). -/
inductive PhaseOutcome (Doc Err Dat Ext Sch Val : Type) where
  | done (out : DriverOutcome Dat Err Ext) (ctx : ExecutionContext Doc Err Dat Sch Val)
      (trace : List (CallEvent Err))
  | proceed (document : Doc) (ctx : ExecutionContext Doc Err Dat Sch Val)
      (trace : List (CallEvent Err))
  deriving DecidableEq

/-- Lines 61-99 of `execute` and lines 144-182 of `execute_sync`, which are
textually identical apart from async markers, embedded once.  Enter the
request region, run the parsing region around parse_document with its two
error short-circuits (a raised GraphQLError, or any other exception wrapped
through `wrapError`), then, when `validate_queries` holds, run the validation
region: if `context.errors` is still unset, assert schema and document are
present and store the validator's output into `context.errors`; if
`context.errors` is then non-empty, short-circuit with an ExecutionResult
carrying those errors and no extensions field.  Python's `with` statements
run the region-exit hooks on every exit path, including the early returns and
raised exceptions, before the function returns. -/
def preExecutionPhases (env : Env Doc Err Dat Ext Sch Val) (query : String)
    (validate_queries : Bool)
    (execution_context : ExecutionContext Doc Err Dat Sch Val) :
    PhaseOutcome Doc Err Dat Ext Sch Val :=
  let c1 := env.on_request_start execution_context
  let c2 := env.on_parsing_start c1
  match parse_document env c2 query with
  | (.gqlError e, cp, ev) =>
      let c3 := { env.on_parsing_end cp with errors := some [e] }
      let exts := env.get_extensions_results c3
      .done (.ok ⟨none, some [e], some exts⟩) (env.on_request_end c3)
        (ev ++ [.writeErrors [e]])
  | (.exnError msg, cp, ev) =>
      let e := env.wrapError msg
      let c3 := { env.on_parsing_end cp with errors := some [e] }
      let exts := env.get_extensions_results c3
      .done (.ok ⟨none, some [e], some exts⟩) (env.on_request_end c3)
        (ev ++ [.writeErrors [e]])
  | (.ok document, cp, ev) =>
      let c3 := env.on_parsing_end cp
      if validate_queries then
        let c4 := env.on_validation_start c3
        match c4.errors with
        | none =>
          match c4.graphql_schema, c4.graphql_document with
          | some s, some d =>
            let errs := validate_document env s d c4.validation_rules
            let c5 := { c4 with errors := some errs }
            let ev2 := ev ++ [.validatorCall, .writeErrors errs]
            match errs with
            | [] => .proceed document (env.on_validation_end c5) ev2
            | e :: es =>
                .done (.ok ⟨none, some (e :: es), none⟩)
                  (env.on_request_end (env.on_validation_end c5)) ev2
          | _, _ =>
              .done (.fatal "AssertionError")
                (env.on_request_end (env.on_validation_end c4)) ev
        | some preset =>
          match preset with
          | [] => .proceed document (env.on_validation_end c4) ev
          | e :: es =>
              .done (.ok ⟨none, some (e :: es), none⟩)
                (env.on_request_end (env.on_validation_end c4)) ev
      else
        .proceed document c3 ev

/-- Lines 43-123 of execute.py: the suspending driver.  After the shared
pre-execution phases, invoke the external executor, await the result when it
is awaitable, store the completed result on `context.result`, exit the
request region, and return the result's data and errors together with the
merged extensions mapping (computed after the request region closed). -/
def execute (env : Env Doc Err Dat Ext Sch Val) (schema : Sch) (query : String)
    (validate_queries : Bool)
    (execution_context : ExecutionContext Doc Err Dat Sch Val) :
    DriverOutcome Dat Err Ext × ExecutionContext Doc Err Dat Sch Val ×
      List (CallEvent Err) :=
  match preExecutionPhases env query validate_queries execution_context with
  | .done out c tr => (out, c, tr)
  | .proceed document c tr =>
      let r := match env.original_execute schema document c with
        | .sync r => r
        | .awaitable r => r
      let c2 := { c with result := some r }
      let c3 := env.on_request_end c2
      (.ok ⟨r.data, r.errors, some (env.get_extensions_results c3)⟩, c3,
        tr ++ [.executorCall, .writeResult])

/-- Lines 126-208 of execute.py: the blocking driver.  After the shared
pre-execution phases, invoke the external executor.  If the result is
awaitable, cancel the pending computation and raise RuntimeError (the request
region still exits).  Otherwise store the result on `context.result`, copy
the result's errors into `context.errors` when they are non-empty (Python
truthiness of `result.errors`), exit the request region, and return the
result's data and errors with the merged extensions mapping. -/
def execute_sync (env : Env Doc Err Dat Ext Sch Val) (schema : Sch)
    (query : String) (validate_queries : Bool)
    (execution_context : ExecutionContext Doc Err Dat Sch Val) :
    DriverOutcome Dat Err Ext × ExecutionContext Doc Err Dat Sch Val ×
      List (CallEvent Err) :=
  match preExecutionPhases env query validate_queries execution_context with
  | .done out c tr => (out, c, tr)
  | .proceed document c tr =>
      match env.original_execute schema document c with
      | .awaitable _ =>
          (.fatal "GraphQL execution failed to complete synchronously.",
            env.on_request_end c, tr ++ [.executorCall, .cancelCall])
      | .sync r =>
          let c2 := { c with result := some r }
          match r.errors with
          | some (e :: es) =>
              let c3 := env.on_request_end { c2 with errors := some (e :: es) }
              (.ok ⟨r.data, r.errors, some (env.get_extensions_results c3)⟩, c3,
                tr ++ [.executorCall, .writeResult, .writeErrors (e :: es)])
          | some [] =>
              let c3 := env.on_request_end c2
              (.ok ⟨r.data, r.errors, some (env.get_extensions_results c3)⟩, c3,
                tr ++ [.executorCall, .writeResult])
          | none =>
              let c3 := env.on_request_end c2
              (.ok ⟨r.data, r.errors, some (env.get_extensions_results c3)⟩, c3,
                tr ++ [.executorCall, .writeResult])

/-- Does a trace event record a write of `context.graphql_document`. -/
def isWriteDocument : CallEvent Err → Bool
  | .writeDocument => true
  | _ => false

/-- Does a trace event record a write of `context.result`. -/
def isWriteResult : CallEvent Err → Bool
  | .writeResult => true
  | _ => false

/-- Does a trace event record an invocation of the external parser. -/
def isParserCall : CallEvent Err → Bool
  | .parserCall => true
  | _ => false

/-- The values successively written to `context.errors`, in write order. -/
def writeErrorsValues : List (CallEvent Err) → List (List Err) :=
  List.filterMap fun e => match e with
    | .writeErrors l => some l
    | _ => none

/-- The extensions field of a returned ExecutionResult (none when the call
raised instead of returning). -/
def resultExtensions : DriverOutcome Dat Err Ext → Option Ext
  | .ok r => r.extensions
  | .fatal _ => none

/-- A driver outcome with the extensions mapping's content erased (presence
kept): the extension-independent observable part of a result. -/
def eraseExtensions : DriverOutcome Dat Err Ext → DriverOutcome Dat Err Unit
  | .ok r => .ok ⟨r.data, r.errors, r.extensions.map fun _ => ()⟩
  | .fatal msg => .fatal msg

/-- Identity-hook environment over Nat payloads, built from a parser, a fixed
validator output, a fixed executor outcome and a terminal hook; used to
instantiate the theorems at concrete inputs. -/
def mkEnv (parseF : String → ParseOutcome Nat Nat) (validateOut : List Nat)
    (execOut : ExecOutcome (GraphQLExecutionResult Nat Nat))
    (extF : ExecutionContext Nat Nat Nat Nat Nat → Option (List Nat)) :
    Env Nat Nat Nat (Option (List Nat)) Nat Nat where
  parse := parseF
  wrapError := fun _ => 0
  validate := fun _ _ _ => validateOut
  original_execute := fun _ _ _ => execOut
  on_request_start := id
  on_request_end := id
  on_parsing_start := id
  on_parsing_end := id
  on_validation_start := id
  on_validation_end := id
  get_extensions_results := extF

/-- A fresh per-request context: schema set, document, errors and result
unset, opaque inputs instantiated with 0. -/
def ctx0 : ExecutionContext Nat Nat Nat Nat Nat :=
  ⟨"{ hello }", some 0, none, 0, 0, 0, 0, 0, none, none⟩

/-- Happy-path environment: parsing succeeds, validation is clean, the
executor completes synchronously with data and no errors; terminal hooks
report `context.errors`. -/
def envBase : Env Nat Nat Nat (Option (List Nat)) Nat Nat :=
  mkEnv (fun _ => .ok 0) [] (.sync ⟨some 1, none⟩) (fun c => c.errors)

/-- Like envBase except the completed executor result carries a result-level
error, so the blocking path copies it into `context.errors`. -/
def envResErr : Env Nat Nat Nat (Option (List Nat)) Nat Nat :=
  mkEnv (fun _ => .ok 0) [] (.sync ⟨some 1, some [7]⟩) (fun c => c.errors)

/-- Environment whose validator rejects every document with one error and
whose terminal hooks contribute a non-empty mapping. -/
def envValErr : Env Nat Nat Nat (Option (List Nat)) Nat Nat :=
  mkEnv (fun _ => .ok 0) [5] (.sync ⟨some 1, none⟩) (fun _ => some [99])

/-- Environment whose parser raises a GraphQLError on every query. -/
def envParseErr : Env Nat Nat Nat (Option (List Nat)) Nat Nat :=
  mkEnv (fun _ => .gqlError 3) [] (.sync ⟨some 1, none⟩) (fun c => c.errors)

/-- Environment whose executor returns a still-pending awaitable. -/
def envPending : Env Nat Nat Nat (Option (List Nat)) Nat Nat :=
  mkEnv (fun _ => .ok 0) [] (.awaitable ⟨some 1, none⟩) (fun c => c.errors)

/-- ctx0 after a successful parse of document 0. -/
def ctxParsed : ExecutionContext Nat Nat Nat Nat Nat :=
  { ctx0 with graphql_document := some 0 }

/-- ctxParsed after a clean validation pass stored the empty error list. -/
def ctxValidated : ExecutionContext Nat Nat Nat Nat Nat :=
  { ctxParsed with errors := some [] }

/-- ctxParsed after a failed validation stored the error list [5]. -/
def ctxRejected : ExecutionContext Nat Nat Nat Nat Nat :=
  { ctxParsed with errors := some [5] }

/-- Every event in a parse_document trace is a parser invocation or the
document write. -/
lemma parse_document_trace_mem (env : Env Doc Err Dat Ext Sch Val)
    (c : ExecutionContext Doc Err Dat Sch Val) (q : String) :
    ∀ ev ∈ (parse_document env c q).2.2,
      ev = CallEvent.parserCall ∨ ev = CallEvent.writeDocument := by
  intro ev hev
  unfold parse_document at hev
  split at hev
  · simp at hev
  · split at hev <;> simp at hev <;> simp [hev]

/-- parse_document never touches the context's `result` field. -/
lemma parse_document_ctx_result (env : Env Doc Err Dat Ext Sch Val)
    (c : ExecutionContext Doc Err Dat Sch Val) (q : String) :
    ((parse_document env c q).2.1).result = c.result := by
  unfold parse_document
  split
  · rfl
  · split <;> rfl

/-- On a successful parse_document call the trace is empty (cached document)
or exactly the parser invocation followed by the document write. -/
lemma parse_document_ok_trace (env : Env Doc Err Dat Ext Sch Val)
    (c : ExecutionContext Doc Err Dat Sch Val) (q : String) (d : Doc)
    (c2 : ExecutionContext Doc Err Dat Sch Val) (tr : List (CallEvent Err))
    (h : parse_document env c q = (.ok d, c2, tr)) :
    tr = [] ∨ tr = [CallEvent.parserCall, CallEvent.writeDocument] := by
  unfold parse_document at h
  split at h
  · simp at h
    exact Or.inl h.2.2
  · split at h <;> simp_all

/-- The traces a pre-execution short-circuit can produce, enumerated. -/
lemma preExecutionPhases_done_trace (env : Env Doc Err Dat Ext Sch Val)
    (q : String) (vq : Bool) (ctx : ExecutionContext Doc Err Dat Sch Val)
    (out : DriverOutcome Dat Err Ext) (c : ExecutionContext Doc Err Dat Sch Val)
    (tr : List (CallEvent Err))
    (h : preExecutionPhases env q vq ctx = .done out c tr) :
    tr = [] ∨ tr = [CallEvent.parserCall, CallEvent.writeDocument] ∨
    (∃ e, tr = [CallEvent.parserCall, CallEvent.writeErrors [e]]) ∨
    (∃ l, tr = [CallEvent.validatorCall, CallEvent.writeErrors l]) ∨
    (∃ l, tr = [CallEvent.parserCall, CallEvent.writeDocument,
      CallEvent.validatorCall, CallEvent.writeErrors l]) := by
  simp only [preExecutionPhases] at h
  rcases hpd : parse_document env (env.on_parsing_start (env.on_request_start ctx)) q
    with ⟨po, cp, ev⟩
  rw [hpd] at h
  have hok := parse_document_ok_trace env
    (env.on_parsing_start (env.on_request_start ctx)) q
  cases po with
  | gqlError e =>
      have : ev = [CallEvent.parserCall] := by
        unfold parse_document at hpd
        split at hpd
        · simp at hpd
        · split at hpd <;> simp_all
      simp only [this] at h
      simp at h
      right; right; left
      exact ⟨e, h.2.2.symm⟩
  | exnError msg =>
      have : ev = [CallEvent.parserCall] := by
        unfold parse_document at hpd
        split at hpd
        · simp at hpd
        · split at hpd <;> simp_all
      simp only [this] at h
      simp at h
      right; right; left
      exact ⟨env.wrapError msg, h.2.2.symm⟩
  | ok d =>
      have hev : ev = [] ∨ ev = [CallEvent.parserCall, CallEvent.writeDocument] :=
        hok d cp ev hpd
      simp only at h
      cases vq with
      | false => simp at h
      | true =>
        simp only [if_true] at h
        rcases hev with hev | hev <;> subst hev <;>
          (repeat' split at h) <;> simp_all <;> aesop

/-- The traces the pre-execution phases can hand to the executor phase,
enumerated: a clean validation pass writes the empty error list, and a
skipped validation writes nothing. -/
lemma preExecutionPhases_proceed_trace (env : Env Doc Err Dat Ext Sch Val)
    (q : String) (vq : Bool) (ctx : ExecutionContext Doc Err Dat Sch Val)
    (d : Doc) (c : ExecutionContext Doc Err Dat Sch Val) (tr : List (CallEvent Err))
    (h : preExecutionPhases env q vq ctx = .proceed d c tr) :
    tr = [] ∨ tr = [CallEvent.parserCall, CallEvent.writeDocument] ∨
    tr = [CallEvent.validatorCall, CallEvent.writeErrors []] ∨
    tr = [CallEvent.parserCall, CallEvent.writeDocument, CallEvent.validatorCall,
      CallEvent.writeErrors []] := by
  simp only [preExecutionPhases] at h
  rcases hpd : parse_document env (env.on_parsing_start (env.on_request_start ctx)) q
    with ⟨po, cp, ev⟩
  rw [hpd] at h
  cases po with
  | gqlError e => simp at h
  | exnError msg => simp at h
  | ok dd =>
      have hev := parse_document_ok_trace env
        (env.on_parsing_start (env.on_request_start ctx)) q dd cp ev hpd
      cases vq with
      | false =>
          simp at h
          rcases hev with hev | hev <;> simp_all
      | true =>
          simp only [if_true] at h
          rcases hev with hev | hev <;> subst hev <;>
            (repeat' split at h) <;> simp_all

/-- When every region hook preserves the context's `result` field, a
pre-execution short-circuit leaves `result` exactly as the caller passed
it in. -/
lemma preExecutionPhases_done_result (env : Env Doc Err Dat Ext Sch Val)
    (q : String) (vq : Bool) (ctx : ExecutionContext Doc Err Dat Sch Val)
    (out : DriverOutcome Dat Err Ext) (c : ExecutionContext Doc Err Dat Sch Val)
    (tr : List (CallEvent Err))
    (hRS : ∀ x, (env.on_request_start x).result = x.result)
    (hRE : ∀ x, (env.on_request_end x).result = x.result)
    (hPS : ∀ x, (env.on_parsing_start x).result = x.result)
    (hPE : ∀ x, (env.on_parsing_end x).result = x.result)
    (hVS : ∀ x, (env.on_validation_start x).result = x.result)
    (hVE : ∀ x, (env.on_validation_end x).result = x.result)
    (h : preExecutionPhases env q vq ctx = .done out c tr) :
    c.result = ctx.result := by
  simp only [preExecutionPhases] at h
  rcases hpd : parse_document env (env.on_parsing_start (env.on_request_start ctx)) q
    with ⟨po, cp, ev⟩
  have hcp : cp.result = ctx.result := by
    have hpr := parse_document_ctx_result env
      (env.on_parsing_start (env.on_request_start ctx)) q
    rw [hpd] at hpr
    simpa [hPS, hRS] using hpr
  rw [hpd] at h
  cases po with
  | gqlError e =>
      simp at h
      obtain ⟨-, hc, -⟩ := h
      simp [← hc, hRE, hPE, hcp]
  | exnError msg =>
      simp at h
      obtain ⟨-, hc, -⟩ := h
      simp [← hc, hRE, hPE, hcp]
  | ok dd =>
      cases vq with
      | false => simp at h
      | true =>
          simp only [if_true] at h
          (repeat' split at h) <;>
            first
              | (simp only [PhaseOutcome.done.injEq] at h
                 obtain ⟨-, hc, -⟩ := h
                 simp [← hc, hRE, hPE, hVS, hVE, hcp])
              | simp_all

/-- C7: parse_document is idempotent.  After any successful call, a second
call on the resulting context returns the identical document with no events
at all, so the external parser is invoked at most once across both calls; and
when the context's document is already set, the first call invokes no parser
and returns that document. -/
theorem parse_document_idempotent (env : Env Doc Err Dat Ext Sch Val)
    (c : ExecutionContext Doc Err Dat Sch Val) (q : String) (d : Doc)
    (c2 : ExecutionContext Doc Err Dat Sch Val) (tr : List (CallEvent Err))
    (h : parse_document env c q = (.ok d, c2, tr)) :
    parse_document env c2 q = (.ok d, c2, []) ∧
    tr.countP isParserCall ≤ 1 ∧
    (∀ d0, c.graphql_document = some d0 → d = d0 ∧ tr = []) := by
  unfold parse_document at h ⊢
  cases hd : c.graphql_document with
  | some dd =>
      rw [hd] at h
      simp at h
      simp_all [isParserCall]
  | none =>
      rw [hd] at h
      cases hp : env.parse q <;> rw [hp] at h <;> simp at h
      obtain ⟨h1, h2, h3⟩ := h
      subst h1; subst h2; subst h3
      refine ⟨by simp, by simp [isParserCall, List.countP_cons, List.countP_nil], ?_⟩
      intro d0 hc
      simp at hc

/-- C7 witness: a fresh context is parsed once, and the second call returns
the cached document with no parser invocation. -/
theorem parse_document_idempotent_witness :
    parse_document envBase ctx0 "{ hello }" =
      (.ok 0, { ctx0 with graphql_document := some 0 },
        [CallEvent.parserCall, CallEvent.writeDocument]) ∧
    (parse_document envBase { ctx0 with graphql_document := some 0 } "{ hello }" =
        (.ok 0, { ctx0 with graphql_document := some 0 }, []) ∧
      ([CallEvent.parserCall, CallEvent.writeDocument] :
        List (CallEvent Nat)).countP isParserCall ≤ 1 ∧
      (∀ d0, ctx0.graphql_document = some d0 → 0 = d0 ∧
        ([CallEvent.parserCall, CallEvent.writeDocument] :
          List (CallEvent Nat)) = [])) :=
  ⟨by decide,
    parse_document_idempotent envBase ctx0 "{ hello }" 0
      { ctx0 with graphql_document := some 0 }
      [CallEvent.parserCall, CallEvent.writeDocument] (by decide)⟩

/-- C3: on a query whose parse raises a GraphQLError, both drivers return an
ExecutionResult with data null and exactly that one error (with the merged
terminal-hook extensions), and neither the external validator nor the
external executor is invoked. -/
theorem malformed_query_short_circuits (env : Env Doc Err Dat Ext Sch Val)
    (schema : Sch) (q : String) (vq : Bool)
    (ctx : ExecutionContext Doc Err Dat Sch Val) (e : Err)
    (hdoc : (env.on_parsing_start (env.on_request_start ctx)).graphql_document = none)
    (hparse : env.parse q = .gqlError e) :
    execute env schema q vq ctx =
      (.ok ⟨none, some [e],
        some (env.get_extensions_results
          { env.on_parsing_end (env.on_parsing_start (env.on_request_start ctx)) with
            errors := some [e] })⟩,
       env.on_request_end
         { env.on_parsing_end (env.on_parsing_start (env.on_request_start ctx)) with
           errors := some [e] },
       [CallEvent.parserCall, CallEvent.writeErrors [e]]) ∧
    execute_sync env schema q vq ctx =
      (.ok ⟨none, some [e],
        some (env.get_extensions_results
          { env.on_parsing_end (env.on_parsing_start (env.on_request_start ctx)) with
            errors := some [e] })⟩,
       env.on_request_end
         { env.on_parsing_end (env.on_parsing_start (env.on_request_start ctx)) with
           errors := some [e] },
       [CallEvent.parserCall, CallEvent.writeErrors [e]]) ∧
    CallEvent.validatorCall ∉ (execute env schema q vq ctx).2.2 ∧
    CallEvent.executorCall ∉ (execute env schema q vq ctx).2.2 ∧
    CallEvent.validatorCall ∉ (execute_sync env schema q vq ctx).2.2 ∧
    CallEvent.executorCall ∉ (execute_sync env schema q vq ctx).2.2 := by
  have hpd : parse_document env (env.on_parsing_start (env.on_request_start ctx)) q =
      (.gqlError e, env.on_parsing_start (env.on_request_start ctx),
        [CallEvent.parserCall]) := by
    unfold parse_document
    rw [hdoc, hparse]
  have hpre : preExecutionPhases env q vq ctx =
      .done (.ok ⟨none, some [e],
          some (env.get_extensions_results
            { env.on_parsing_end (env.on_parsing_start (env.on_request_start ctx)) with
              errors := some [e] })⟩)
        (env.on_request_end
          { env.on_parsing_end (env.on_parsing_start (env.on_request_start ctx)) with
            errors := some [e] })
        [CallEvent.parserCall, CallEvent.writeErrors [e]] := by
    simp only [preExecutionPhases]
    rw [hpd]
    simp
  refine ⟨?_, ?_, ?_, ?_, ?_, ?_⟩ <;> simp [execute, execute_sync, hpre]

/-- C3 witness: an environment whose parser rejects every query
short-circuits both drivers with the single parse error and no validator or
executor call. -/
theorem malformed_query_short_circuits_witness :
    (envParseErr.on_parsing_start (envParseErr.on_request_start ctx0)).graphql_document
        = none ∧
    envParseErr.parse "{ hello }" = .gqlError 3 ∧
    (execute envParseErr 0 "{ hello }" true ctx0).1 =
      .ok ⟨none, some [3],
        some (envParseErr.get_extensions_results
          { envParseErr.on_parsing_end
              (envParseErr.on_parsing_start (envParseErr.on_request_start ctx0)) with
            errors := some [3] })⟩ :=
  ⟨by decide, by decide,
    congrArg Prod.fst
      (malformed_query_short_circuits envParseErr 0 "{ hello }" true ctx0 3
        (by decide) (by decide)).1⟩

/-- C4: when validation runs (validate_queries on, context errors unset at
validation entry) and yields a non-empty error list, both drivers return data
null with exactly those N errors (and no extensions field), and the external
executor is never invoked. -/
theorem failed_validation_short_circuits (env : Env Doc Err Dat Ext Sch Val)
    (schema : Sch) (q : String) (ctx : ExecutionContext Doc Err Dat Sch Val)
    (d : Doc) (cp : ExecutionContext Doc Err Dat Sch Val) (tr0 : List (CallEvent Err))
    (s : Sch) (d2 : Doc) (e : Err) (es : List Err)
    (hpd : parse_document env (env.on_parsing_start (env.on_request_start ctx)) q
      = (.ok d, cp, tr0))
    (hne : (env.on_validation_start (env.on_parsing_end cp)).errors = none)
    (hs : (env.on_validation_start (env.on_parsing_end cp)).graphql_schema = some s)
    (hd2 : (env.on_validation_start (env.on_parsing_end cp)).graphql_document = some d2)
    (hv : validate_document env s d2
      (env.on_validation_start (env.on_parsing_end cp)).validation_rules = e :: es) :
    (execute env schema q true ctx).1 = .ok ⟨none, some (e :: es), none⟩ ∧
    CallEvent.executorCall ∉ (execute env schema q true ctx).2.2 ∧
    (execute_sync env schema q true ctx).1 = .ok ⟨none, some (e :: es), none⟩ ∧
    CallEvent.executorCall ∉ (execute_sync env schema q true ctx).2.2 := by
  have hmemall := parse_document_trace_mem env
    (env.on_parsing_start (env.on_request_start ctx)) q
  rw [hpd] at hmemall
  simp only at hmemall
  have htr0 : CallEvent.executorCall ∉ tr0 := by
    intro hmem
    rcases hmemall CallEvent.executorCall hmem with h | h <;> simp at h
  have hpre : preExecutionPhases env q true ctx =
      .done (.ok ⟨none, some (e :: es), none⟩)
        (env.on_request_end (env.on_validation_end
          { env.on_validation_start (env.on_parsing_end cp) with
            errors := some (e :: es) }))
        (tr0 ++ [CallEvent.validatorCall, CallEvent.writeErrors (e :: es)]) := by
    simp only [preExecutionPhases]
    rw [hpd]
    simp [hne, hs, hd2, hv]
  refine ⟨?_, ?_, ?_, ?_⟩ <;> simp [execute, execute_sync, hpre, htr0]

/-- C4 witness: a validator rejecting the document with one error makes both
drivers return exactly that error with data null. -/
theorem failed_validation_short_circuits_witness :
    parse_document envValErr ctx0 "{ hello }" =
      (.ok 0, ctxParsed, [CallEvent.parserCall, CallEvent.writeDocument]) ∧
    ctxParsed.errors = none ∧
    validate_document envValErr 0 0 ctxParsed.validation_rules = [5] ∧
    (execute envValErr 0 "{ hello }" true ctx0).1 = .ok ⟨none, some [5], none⟩ :=
  ⟨by decide, by decide, by decide,
    (failed_validation_short_circuits envValErr 0 "{ hello }" ctx0 0 ctxParsed
      [CallEvent.parserCall, CallEvent.writeDocument] 0 0 5 []
      (by decide) (by decide) (by decide) (by decide) (by decide)).1⟩

/-- C8: with validate_queries disabled, both drivers skip the validation
phase entirely (no validator invocation) and invoke the external executor,
whatever the validator would have said about the query. -/
theorem validation_disabled_invokes_executor (env : Env Doc Err Dat Ext Sch Val)
    (schema : Sch) (q : String) (ctx : ExecutionContext Doc Err Dat Sch Val)
    (d : Doc) (cp : ExecutionContext Doc Err Dat Sch Val) (tr0 : List (CallEvent Err))
    (hpd : parse_document env (env.on_parsing_start (env.on_request_start ctx)) q
      = (.ok d, cp, tr0)) :
    CallEvent.validatorCall ∉ (execute env schema q false ctx).2.2 ∧
    CallEvent.executorCall ∈ (execute env schema q false ctx).2.2 ∧
    CallEvent.validatorCall ∉ (execute_sync env schema q false ctx).2.2 ∧
    CallEvent.executorCall ∈ (execute_sync env schema q false ctx).2.2 := by
  have hmemall := parse_document_trace_mem env
    (env.on_parsing_start (env.on_request_start ctx)) q
  rw [hpd] at hmemall
  simp only at hmemall
  have htr0 : CallEvent.validatorCall ∉ tr0 := by
    intro hmem
    rcases hmemall CallEvent.validatorCall hmem with h | h <;> simp at h
  have hpre : preExecutionPhases env q false ctx =
      .proceed d (env.on_parsing_end cp) tr0 := by
    simp only [preExecutionPhases]
    rw [hpd]
    simp
  refine ⟨?_, ?_, ?_, ?_⟩
  · simp [execute, hpre, htr0]
  · simp [execute, hpre]
  · unfold execute_sync
    rw [hpre]
    simp only
    split
    · simp [htr0]
    · split <;> simp [htr0]
  · unfold execute_sync
    rw [hpre]
    simp only
    split
    · simp
    · split <;> simp

/-- C8 witness: with validation disabled, the rejecting validator of
envValErr is never consulted and the executor still runs. -/
theorem validation_disabled_invokes_executor_witness :
    parse_document envValErr ctx0 "{ hello }" =
      (.ok 0, ctxParsed, [CallEvent.parserCall, CallEvent.writeDocument]) ∧
    CallEvent.executorCall ∈ (execute envValErr 0 "{ hello }" false ctx0).2.2 :=
  ⟨by decide,
    (validation_disabled_invokes_executor envValErr 0 "{ hello }" ctx0 0 ctxParsed
      [CallEvent.parserCall, CallEvent.writeDocument] (by decide)).2.1⟩

/-- C6: when the external executor hands the blocking driver a still-pending
awaitable, execute_sync cancels the pending computation and raises a
RuntimeError to the caller; no ExecutionResult is returned and the failure is
not placed into an errors field. -/
theorem sync_pending_executor_fatal (env : Env Doc Err Dat Ext Sch Val)
    (schema : Sch) (q : String) (vq : Bool)
    (ctx : ExecutionContext Doc Err Dat Sch Val) (d : Doc)
    (c : ExecutionContext Doc Err Dat Sch Val) (tr : List (CallEvent Err))
    (r : GraphQLExecutionResult Dat Err)
    (hpre : preExecutionPhases env q vq ctx = .proceed d c tr)
    (hex : env.original_execute schema d c = .awaitable r) :
    execute_sync env schema q vq ctx =
      (.fatal "GraphQL execution failed to complete synchronously.",
        env.on_request_end c,
        tr ++ [CallEvent.executorCall, CallEvent.cancelCall]) := by
  unfold execute_sync
  rw [hpre]
  simp only
  rw [hex]

/-- C6 witness: with a pending executor, execute_sync raises the RuntimeError
after cancelling, instead of returning a result. -/
theorem sync_pending_executor_fatal_witness :
    preExecutionPhases envPending "{ hello }" true ctx0 =
      .proceed 0 ctxValidated
        [CallEvent.parserCall, CallEvent.writeDocument,
          CallEvent.validatorCall, CallEvent.writeErrors []] ∧
    execute_sync envPending 0 "{ hello }" true ctx0 =
      (.fatal "GraphQL execution failed to complete synchronously.",
        envPending.on_request_end ctxValidated,
        [CallEvent.parserCall, CallEvent.writeDocument, CallEvent.validatorCall,
          CallEvent.writeErrors [], CallEvent.executorCall, CallEvent.cancelCall]) :=
  ⟨by decide,
    sync_pending_executor_fatal envPending 0 "{ hello }" true ctx0 0 ctxValidated
      [CallEvent.parserCall, CallEvent.writeDocument, CallEvent.validatorCall,
        CallEvent.writeErrors []] ⟨some 1, none⟩ (by decide) (by decide)⟩

/-- C9: once the external executor completes, the completed result is stored
on context.result in both paths, and the blocking path additionally copies
non-empty result-level errors into context.errors, so terminal hooks observe
them. -/
theorem completed_result_stored (env : Env Doc Err Dat Ext Sch Val)
    (schema : Sch) (q : String) (vq : Bool)
    (ctx : ExecutionContext Doc Err Dat Sch Val) (d : Doc)
    (c : ExecutionContext Doc Err Dat Sch Val) (tr : List (CallEvent Err))
    (r : GraphQLExecutionResult Dat Err)
    (hpre : preExecutionPhases env q vq ctx = .proceed d c tr)
    (hex : env.original_execute schema d c = .sync r)
    (hRE : ∀ x, (env.on_request_end x).result = x.result)
    (hREe : ∀ x, (env.on_request_end x).errors = x.errors) :
    (execute env schema q vq ctx).2.1.result = some r ∧
    (execute_sync env schema q vq ctx).2.1.result = some r ∧
    (∀ e es, r.errors = some (e :: es) →
      (execute_sync env schema q vq ctx).2.1.errors = some (e :: es)) := by
  unfold execute execute_sync
  rw [hpre]
  simp only [hex]
  refine ⟨by simp [hRE], ?_, ?_⟩
  · split <;> simp [hRE]
  · intro e es hre
    simp [hre, hREe]

/-- C9 witness: a synchronously completed result with a result-level error is
stored on context.result, and the blocking path copies the error into
context.errors. -/
theorem completed_result_stored_witness :
    envResErr.original_execute 0 0 ctxValidated = .sync ⟨some 1, some [7]⟩ ∧
    (execute envResErr 0 "{ hello }" true ctx0).2.1.result =
      some ⟨some 1, some [7]⟩ ∧
    (execute_sync envResErr 0 "{ hello }" true ctx0).2.1.errors = some [7] :=
  ⟨by decide,
    (completed_result_stored envResErr 0 "{ hello }" true ctx0 0 ctxValidated
      [CallEvent.parserCall, CallEvent.writeDocument, CallEvent.validatorCall,
        CallEvent.writeErrors []] ⟨some 1, some [7]⟩ (by decide) (by decide)
      (fun _ => rfl) (fun _ => rfl)).1,
    (completed_result_stored envResErr 0 "{ hello }" true ctx0 0 ctxValidated
      [CallEvent.parserCall, CallEvent.writeDocument, CallEvent.validatorCall,
        CallEvent.writeErrors []] ⟨some 1, some [7]⟩ (by decide) (by decide)
      (fun _ => rfl) (fun _ => rfl)).2.2 7 [] (by decide)⟩

/-- A pre-execution short-circuit trace records no result write. -/
lemma done_no_writeResult (env : Env Doc Err Dat Ext Sch Val) (q : String)
    (vq : Bool) (ctx : ExecutionContext Doc Err Dat Sch Val)
    (out : DriverOutcome Dat Err Ext) (c : ExecutionContext Doc Err Dat Sch Val)
    (tr : List (CallEvent Err))
    (h : preExecutionPhases env q vq ctx = .done out c tr) :
    CallEvent.writeResult ∉ tr := by
  rcases preExecutionPhases_done_trace env q vq ctx out c tr h with
    h1 | h1 | ⟨e, h1⟩ | ⟨l, h1⟩ | ⟨l, h1⟩ <;> subst h1 <;> simp

/-- A pre-execution trace handed to the executor phase records no result
write. -/
lemma proceed_no_writeResult (env : Env Doc Err Dat Ext Sch Val) (q : String)
    (vq : Bool) (ctx : ExecutionContext Doc Err Dat Sch Val) (d : Doc)
    (c : ExecutionContext Doc Err Dat Sch Val) (tr : List (CallEvent Err))
    (h : preExecutionPhases env q vq ctx = .proceed d c tr) :
    CallEvent.writeResult ∉ tr := by
  rcases preExecutionPhases_proceed_trace env q vq ctx d c tr h with
    h1 | h1 | h1 | h1 <;> subst h1 <;> simp

/-- C1 (amended): when the external executor always completes synchronously,
execute and execute_sync return the same data, the same errors and the same
extensions-presence; and when, additionally, no completed result carries
errors, the two drivers return identical ExecutionResults.  (When the result
carries errors, the blocking path copies them into context.errors before the
terminal hooks run, so extension output that reads context.errors can
differ.) -/
theorem sync_async_equivalence (env : Env Doc Err Dat Ext Sch Val)
    (schema : Sch) (q : String) (vq : Bool)
    (ctx : ExecutionContext Doc Err Dat Sch Val)
    (hsync : ∀ s d c, ∃ r, env.original_execute s d c = .sync r) :
    eraseExtensions (execute env schema q vq ctx).1 =
      eraseExtensions (execute_sync env schema q vq ctx).1 ∧
    ((∀ s d c r, env.original_execute s d c = .sync r →
        r.errors = none ∨ r.errors = some []) →
      (execute env schema q vq ctx).1 = (execute_sync env schema q vq ctx).1) := by
  cases hpre : preExecutionPhases env q vq ctx with
  | done out c tr =>
      exact ⟨by simp [execute, execute_sync, hpre],
        fun _ => by simp [execute, execute_sync, hpre]⟩
  | proceed d c tr =>
      obtain ⟨r, hr⟩ := hsync schema d c
      constructor
      · simp only [execute, execute_sync, hpre, hr]
        rcases r with ⟨rd, re⟩
        rcases re with _ | ⟨_ | ⟨e, es⟩⟩ <;> simp [eraseExtensions]
      · intro hne
        rcases hne schema d c r hr with h | h <;>
          simp [execute, execute_sync, hpre, hr, h]

/-- C1 counterexample: a synchronously completing executor whose result
carries an error, together with terminal hooks that report context.errors,
makes the two drivers return different ExecutionResults (their extensions
mappings differ), refuting strict observational equality. -/
theorem sync_async_equivalence_cex :
    (execute envResErr 0 "{ hello }" true ctx0).1 ≠
      (execute_sync envResErr 0 "{ hello }" true ctx0).1 := by decide

/-- C1 witness: with the error-free synchronous executor of envBase the two
drivers agree on the extension-independent observable result. -/
theorem sync_async_equivalence_witness :
    (∀ s d c, ∃ r, envBase.original_execute s d c = ExecOutcome.sync r) ∧
    eraseExtensions (execute envBase 0 "{ hello }" true ctx0).1 =
      eraseExtensions (execute_sync envBase 0 "{ hello }" true ctx0).1 :=
  ⟨fun _ _ _ => ⟨⟨some 1, none⟩, rfl⟩,
    (sync_async_equivalence envBase 0 "{ hello }" true ctx0
      (fun _ _ _ => ⟨⟨some 1, none⟩, rfl⟩)).1⟩

/-- C2 counterexample: on a failed validation the suspending driver also
returns its ExecutionResult without the extensions terminal-hook output, even
though the terminal hooks would have contributed a non-empty mapping — there
is no sync/async asymmetry at this short-circuit. -/
theorem validation_extensions_asymmetry_cex :
    (execute envValErr 0 "{ hello }" true ctx0).1 = .ok ⟨none, some [5], none⟩ ∧
    resultExtensions (execute envValErr 0 "{ hello }" true ctx0).1 = none ∧
    resultExtensions (execute_sync envValErr 0 "{ hello }" true ctx0).1 = none ∧
    envValErr.get_extensions_results ctxRejected = some [99] := by decide

/-- C2 (amended): on the validation short-circuit, both the blocking and the
suspending driver return an ExecutionResult whose extensions field is unset
(the terminal-hook output is not re-merged in either path). -/
theorem validation_short_circuit_omits_extensions
    (env : Env Doc Err Dat Ext Sch Val) (schema : Sch) (q : String)
    (ctx : ExecutionContext Doc Err Dat Sch Val) (d : Doc)
    (cp : ExecutionContext Doc Err Dat Sch Val) (tr0 : List (CallEvent Err))
    (s : Sch) (d2 : Doc) (e : Err) (es : List Err)
    (hpd : parse_document env (env.on_parsing_start (env.on_request_start ctx)) q
      = (.ok d, cp, tr0))
    (hne : (env.on_validation_start (env.on_parsing_end cp)).errors = none)
    (hs : (env.on_validation_start (env.on_parsing_end cp)).graphql_schema = some s)
    (hd2 : (env.on_validation_start (env.on_parsing_end cp)).graphql_document = some d2)
    (hv : validate_document env s d2
      (env.on_validation_start (env.on_parsing_end cp)).validation_rules = e :: es) :
    resultExtensions (execute env schema q true ctx).1 = none ∧
    resultExtensions (execute_sync env schema q true ctx).1 = none := by
  have hpre : preExecutionPhases env q true ctx =
      .done (.ok ⟨none, some (e :: es), none⟩)
        (env.on_request_end (env.on_validation_end
          { env.on_validation_start (env.on_parsing_end cp) with
            errors := some (e :: es) }))
        (tr0 ++ [CallEvent.validatorCall, CallEvent.writeErrors (e :: es)]) := by
    simp only [preExecutionPhases]
    rw [hpd]
    simp [hne, hs, hd2, hv]
  exact ⟨by simp [execute, hpre, resultExtensions],
    by simp [execute_sync, hpre, resultExtensions]⟩

/-- C2 witness: in the concrete rejecting environment, both drivers omit the
extensions field at the validation short-circuit. -/
theorem validation_short_circuit_omits_extensions_witness :
    parse_document envValErr ctx0 "{ hello }" =
      (.ok 0, ctxParsed, [CallEvent.parserCall, CallEvent.writeDocument]) ∧
    (resultExtensions (execute envValErr 0 "{ hello }" true ctx0).1 = none ∧
      resultExtensions (execute_sync envValErr 0 "{ hello }" true ctx0).1 = none) :=
  ⟨by decide,
    validation_short_circuit_omits_extensions envValErr 0 "{ hello }" ctx0 0
      ctxParsed [CallEvent.parserCall, CallEvent.writeDocument] 0 0 5 []
      (by decide) (by decide) (by decide) (by decide) (by decide)⟩

/-- C5 (amended): per request, `graphql_document` and `result` are written at
most once by either driver, and `errors` is written at most once by the
suspending driver; the blocking driver may write `errors` twice, and only in
the one shape where a clean validation first stored the empty list and the
executor-result phase then overwrote it with the completed result's non-empty
errors.  A non-empty stored errors value is never overwritten. -/
theorem context_writes_per_request (env : Env Doc Err Dat Ext Sch Val)
    (schema : Sch) (q : String) (vq : Bool)
    (ctx : ExecutionContext Doc Err Dat Sch Val) :
    ((execute env schema q vq ctx).2.2.countP isWriteDocument ≤ 1 ∧
     (execute env schema q vq ctx).2.2.countP isWriteResult ≤ 1 ∧
     (writeErrorsValues (execute env schema q vq ctx).2.2).length ≤ 1) ∧
    ((execute_sync env schema q vq ctx).2.2.countP isWriteDocument ≤ 1 ∧
     (execute_sync env schema q vq ctx).2.2.countP isWriteResult ≤ 1 ∧
     ((writeErrorsValues (execute_sync env schema q vq ctx).2.2).length ≤ 1 ∨
      ∃ e es, writeErrorsValues (execute_sync env schema q vq ctx).2.2 =
        [[], e :: es])) := by
  cases hpre : preExecutionPhases env q vq ctx with
  | done out c tr =>
      have hA : (execute env schema q vq ctx).2.2 = tr := by simp [execute, hpre]
      have hS : (execute_sync env schema q vq ctx).2.2 = tr := by
        simp [execute_sync, hpre]
      rw [hA, hS]
      rcases preExecutionPhases_done_trace env q vq ctx out c tr hpre with
        h1 | h1 | ⟨e, h1⟩ | ⟨l, h1⟩ | ⟨l, h1⟩ <;> subst h1 <;>
        simp [isWriteDocument, isWriteResult, writeErrorsValues,
          List.countP_cons, List.countP_nil]
  | proceed d c tr =>
      have htr := preExecutionPhases_proceed_trace env q vq ctx d c tr hpre
      refine ⟨?_, ?_⟩
      · have hA : (execute env schema q vq ctx).2.2 =
            tr ++ [CallEvent.executorCall, CallEvent.writeResult] := by
          simp [execute, hpre]
        rw [hA]
        rcases htr with h1 | h1 | h1 | h1 <;> subst h1 <;>
          simp [isWriteDocument, isWriteResult, writeErrorsValues,
            List.countP_cons, List.countP_nil]
      · cases hex : env.original_execute schema d c with
        | awaitable r =>
            have hS : (execute_sync env schema q vq ctx).2.2 =
                tr ++ [CallEvent.executorCall, CallEvent.cancelCall] := by
              simp [execute_sync, hpre, hex]
            rw [hS]
            rcases htr with h1 | h1 | h1 | h1 <;> subst h1 <;>
              simp [isWriteDocument, isWriteResult, writeErrorsValues,
                List.countP_cons, List.countP_nil]
        | sync r =>
            rcases r with ⟨rd, re⟩
            rcases re with _ | ⟨_ | ⟨e, es⟩⟩
            · have hS : (execute_sync env schema q vq ctx).2.2 =
                  tr ++ [CallEvent.executorCall, CallEvent.writeResult] := by
                simp [execute_sync, hpre, hex]
              rw [hS]
              rcases htr with h1 | h1 | h1 | h1 <;> subst h1 <;>
                simp [isWriteDocument, isWriteResult, writeErrorsValues,
                  List.countP_cons, List.countP_nil]
            · have hS : (execute_sync env schema q vq ctx).2.2 =
                  tr ++ [CallEvent.executorCall, CallEvent.writeResult] := by
                simp [execute_sync, hpre, hex]
              rw [hS]
              rcases htr with h1 | h1 | h1 | h1 <;> subst h1 <;>
                simp [isWriteDocument, isWriteResult, writeErrorsValues,
                  List.countP_cons, List.countP_nil]
            · have hS : (execute_sync env schema q vq ctx).2.2 =
                  tr ++ [CallEvent.executorCall, CallEvent.writeResult,
                    CallEvent.writeErrors (e :: es)] := by
                simp [execute_sync, hpre, hex]
              rw [hS]
              rcases htr with h1 | h1 | h1 | h1 <;> subst h1
              · simp [isWriteDocument, isWriteResult, writeErrorsValues,
                  List.countP_cons, List.countP_nil]
              · simp [isWriteDocument, isWriteResult, writeErrorsValues,
                  List.countP_cons, List.countP_nil]
              · refine ⟨by simp [isWriteDocument, List.countP_cons, List.countP_nil],
                  by simp [isWriteResult, List.countP_cons, List.countP_nil],
                  Or.inr ⟨e, es, by simp [writeErrorsValues]⟩⟩
              · refine ⟨by simp [isWriteDocument, List.countP_cons, List.countP_nil],
                  by simp [isWriteResult, List.countP_cons, List.countP_nil],
                  Or.inr ⟨e, es, by simp [writeErrorsValues]⟩⟩

/-- C5 counterexample: in the blocking driver a clean validation writes the
empty error list and the executor-result phase then writes the result's
errors, so `errors` is written twice in one request, refuting
"written at most once". -/
theorem context_writes_per_request_cex :
    ¬ (writeErrorsValues
        (execute_sync envResErr 0 "{ hello }" true ctx0).2.2).length ≤ 1 := by
  decide

/-- C10: with result-preserving hooks and an initially unset result, every
pre-execution short-circuit (parse error, wrapped parse failure or non-empty
validation errors) leaves context.result unset and records no result write,
in both drivers; and whenever a driver trace contains a result write, that
write sits immediately after the executor invocation, with no result write
before it. -/
theorem result_written_only_after_executor (env : Env Doc Err Dat Ext Sch Val)
    (schema : Sch) (q : String) (vq : Bool)
    (ctx : ExecutionContext Doc Err Dat Sch Val)
    (h0 : ctx.result = none)
    (hRS : ∀ x, (env.on_request_start x).result = x.result)
    (hRE : ∀ x, (env.on_request_end x).result = x.result)
    (hPS : ∀ x, (env.on_parsing_start x).result = x.result)
    (hPE : ∀ x, (env.on_parsing_end x).result = x.result)
    (hVS : ∀ x, (env.on_validation_start x).result = x.result)
    (hVE : ∀ x, (env.on_validation_end x).result = x.result) :
    (∀ out c tr, preExecutionPhases env q vq ctx = .done out c tr →
      execute env schema q vq ctx = (out, c, tr) ∧
      execute_sync env schema q vq ctx = (out, c, tr) ∧
      c.result = none ∧ CallEvent.writeResult ∉ tr) ∧
    (CallEvent.writeResult ∈ (execute env schema q vq ctx).2.2 →
      ∃ pre rest, (execute env schema q vq ctx).2.2 =
        pre ++ [CallEvent.executorCall, CallEvent.writeResult] ++ rest ∧
        CallEvent.writeResult ∉ pre) ∧
    (CallEvent.writeResult ∈ (execute_sync env schema q vq ctx).2.2 →
      ∃ pre rest, (execute_sync env schema q vq ctx).2.2 =
        pre ++ [CallEvent.executorCall, CallEvent.writeResult] ++ rest ∧
        CallEvent.writeResult ∉ pre) := by
  refine ⟨?_, ?_, ?_⟩
  · intro out c tr hdone
    refine ⟨by simp [execute, hdone], by simp [execute_sync, hdone], ?_, ?_⟩
    · rw [preExecutionPhases_done_result env q vq ctx out c tr
        hRS hRE hPS hPE hVS hVE hdone, h0]
    · exact done_no_writeResult env q vq ctx out c tr hdone
  · cases hpre : preExecutionPhases env q vq ctx with
    | done out c tr =>
        intro hmem
        rw [show (execute env schema q vq ctx).2.2 = tr by simp [execute, hpre]]
          at hmem
        exact absurd hmem (done_no_writeResult env q vq ctx out c tr hpre)
    | proceed d c tr =>
        intro _
        refine ⟨tr, [], ?_, proceed_no_writeResult env q vq ctx d c tr hpre⟩
        simp [execute, hpre]
  · cases hpre : preExecutionPhases env q vq ctx with
    | done out c tr =>
        intro hmem
        rw [show (execute_sync env schema q vq ctx).2.2 = tr by
          simp [execute_sync, hpre]] at hmem
        exact absurd hmem (done_no_writeResult env q vq ctx out c tr hpre)
    | proceed d c tr =>
        intro hmem
        cases hex : env.original_execute schema d c with
        | awaitable r =>
            rw [show (execute_sync env schema q vq ctx).2.2 =
                tr ++ [CallEvent.executorCall, CallEvent.cancelCall] by
              simp [execute_sync, hpre, hex]] at hmem
            rcases List.mem_append.1 hmem with h | h
            · exact absurd h (proceed_no_writeResult env q vq ctx d c tr hpre)
            · simp at h
        | sync r =>
            rcases r with ⟨rd, re⟩
            rcases re with _ | ⟨_ | ⟨e, es⟩⟩
            · refine ⟨tr, [], by simp [execute_sync, hpre, hex],
                proceed_no_writeResult env q vq ctx d c tr hpre⟩
            · refine ⟨tr, [], by simp [execute_sync, hpre, hex],
                proceed_no_writeResult env q vq ctx d c tr hpre⟩
            · refine ⟨tr, [CallEvent.writeErrors (e :: es)],
                by simp [execute_sync, hpre, hex],
                proceed_no_writeResult env q vq ctx d c tr hpre⟩

/-- C10 witness: in the concrete rejecting environment the validation
short-circuit leaves context.result unset and its trace has no result
write. -/
theorem result_written_only_after_executor_witness :
    ctx0.result = none ∧
    preExecutionPhases envValErr "{ hello }" true ctx0 =
      .done (.ok ⟨none, some [5], none⟩) ctxRejected
        [CallEvent.parserCall, CallEvent.writeDocument, CallEvent.validatorCall,
          CallEvent.writeErrors [5]] ∧
    (ctxRejected.result = none ∧
      CallEvent.writeResult ∉
        ([CallEvent.parserCall, CallEvent.writeDocument, CallEvent.validatorCall,
          CallEvent.writeErrors [5]] : List (CallEvent Nat))) :=
  ⟨by decide, by decide,
    ((result_written_only_after_executor envValErr 0 "{ hello }" true ctx0
        (by decide) (fun _ => rfl) (fun _ => rfl) (fun _ => rfl) (fun _ => rfl)
        (fun _ => rfl) (fun _ => rfl)).1
      (.ok ⟨none, some [5], none⟩) ctxRejected
      [CallEvent.parserCall, CallEvent.writeDocument, CallEvent.validatorCall,
        CallEvent.writeErrors [5]] (by decide)).2.2⟩

end Strawberry
